import Mathlib

/-
Verification of the URL-shortener link store (Go sources: using-json/main.go,
the gin/redis variant, and using-redis/redis-client.go), as a shallow
embedding in Lean 4.  Machine int64 values are modelled as Int with explicit
wrap-around where overflow matters; Go maps are modelled as association
lists with unique keys; time is modelled as Unix seconds (Int).
-/

/-- The fixed 62-character alphabet `base62` from the source:
digits, lowercase, uppercase, in that digit-value order. -/
def base62 : List Char :=
  "0123456789abcdefghijklmnopqrstuvwxyzABCDEFGHIJKLMNOPQRSTUVWXYZ".toList

/-- Two-sided wrap-around of Go int64 arithmetic: maps any integer to the
representative in [-2^63, 2^63). -/
def wrap64 (n : Int) : Int :=
  (n + 2 ^ 63) % 2 ^ 64 - 2 ^ 63

/-- Digit list (most significant first) produced by the Go loop
`for n > 0 { result = append([]byte{base62[n%62]}, result...); n /= 62 }`,
written with explicit fuel so that it reduces by evaluation; fuel `n` is
enough since `n / 62 < n` for `n > 0`. -/
def b62DigitsAux : Nat → Nat → List Nat
  | 0, _ => []
  | fuel + 1, n => if n = 0 then [] else b62DigitsAux fuel (n / 62) ++ [n % 62]

/-- Base-62 digit expansion of a natural number (empty for 0). -/
def b62Digits (n : Nat) : List Nat :=
  b62DigitsAux n n

/-- `encodeBase62` from the source (both variants share it verbatim):
0 encodes to "0"; a positive n to its base-62 digit string with no leading
zero; a negative int64 skips the loop entirely and yields "". -/
def encodeBase62 (n : Int) : String :=
  if n = 0 then "0"
  else String.mk ((b62Digits n.toNat).map (fun d => base62.getD d ' '))

/-- Value of a digit character: its index in the base62 alphabet. -/
def b62CharIndex (c : Char) : Nat :=
  base62.findIdx (fun x => x == c)

/-- The integer a code base-62 encodes: fold of digit values. -/
def decodeB62 (s : String) : Nat :=
  s.toList.foldl (fun acc c => acc * 62 + b62CharIndex c) 0

/-- Numeric value of a digit list, most significant first. -/
def decodeDigits (l : List Nat) : Nat :=
  l.foldl (fun acc d => acc * 62 + d) 0

/-- `URLData` from the source: the link record.  `clicks` is a Go int,
`created_at` and `expiry` are int64 Unix seconds. -/
structure URLData where
  longURL : String
  clicks : Int
  createdAt : Int
  expiry : Int
deriving DecidableEq, Repr

/-- In-memory store of the using-json variant: the `idCounter` int64 and the
`urlStore` map, the latter modelled as an association list with unique keys
(the Go map supplies key uniqueness). -/
structure StoreState where
  idCounter : Int
  urlStore : List (String × URLData)
deriving DecidableEq, Repr

/-- Association-list lookup, the model of Go map indexing `urlStore[code]`. -/
def alookup (k : String) : List (String × URLData) → Option URLData
  | [] => none
  | (k₀, v) :: rest => if k₀ = k then some v else alookup k rest

/-- Association-list update, the model of Go map assignment
`urlStore[code] = data`: replaces the binding if the key is present,
appends it otherwise. -/
def aupdate (k : String) (v : URLData) : List (String × URLData) → List (String × URLData)
  | [] => [(k, v)]
  | (k₀, v₀) :: rest => if k₀ = k then (k, v) :: rest else (k₀, v₀) :: aupdate k v rest

/-- Association-list removal, the model of Go `delete(urlStore, code)`. -/
def aremove (k : String) : List (String × URLData) → List (String × URLData)
  | [] => []
  | (k₀, v₀) :: rest => if k₀ = k then rest else (k₀, v₀) :: aremove k rest

/-- The expiry predicate of the spec and of `cleanUpExpiredLinks`:
`now > data.CreatedAt + data.Expiry` (strict comparison). -/
def isExpired (d : URLData) (now : Int) : Bool :=
  now > d.createdAt + d.expiry

/-- `cleanUpExpiredLinks` of using-json/main.go, at a fixed sweep time:
iterates the map once and deletes every record with
`now > data.CreatedAt + data.Expiry`.  Deleting the visited key during a Go
map range is well defined and every entry is visited, so the sweep is a
filter keeping exactly the non-expired records. -/
def cleanUpExpiredLinks (st : StoreState) (now : Int) : StoreState :=
  { st with urlStore := st.urlStore.filter (fun kv => !isExpired kv.2 now) }

/-- `isValidURL` from the source: the URL must start with http:// or
https:// (strings.HasPrefix, modelled on the character lists). -/
def isValidURL (url : String) : Bool :=
  "http://".toList.isPrefixOf url.toList || "https://".toList.isPrefixOf url.toList

/-- `isValidCode` from the source: regex `^[a-zA-Z0-9]+$`, that is, non-empty
and every character alphanumeric ASCII. -/
def isValidCode (code : String) : Bool :=
  code ≠ "" && code.toList.all (fun c => c.isAlphanum)

/-- Decoded body of a POST /shorten request: `url`, optional `custom_code`
(absent encoded as ""), optional `expiry_seconds` (absent decoded as 0,
Go zero value). -/
structure ShortenReq where
  url : String
  customCode : String
  expirySeconds : Int
deriving DecidableEq, Repr

/-- Outcome of the shorten handler, named after the HTTP statuses the Go code
writes: 400 for a bad body or URL or custom code, 409 for a taken custom
code, 200 with the code and effective expiry on success. -/
inductive ShortenResult where
  | invalidBody
  | invalidURL
  | invalidCode
  | conflict
  | ok (code : String) (expiry : Int)
deriving DecidableEq, Repr

/-- `shortenHandler` of using-json/main.go as a pure function of the store,
the decoded request and the current time: validates the body and URL; a
non-empty custom code must pass `isValidCode` and be absent from the map,
else the int64 counter is incremented and base-62 encoded; an
`expiry_seconds` of exactly 0 is replaced by the 7-day default; the record
is then inserted with 0 clicks and `CreatedAt = now`. -/
def shortenHandler (st : StoreState) (req : ShortenReq) (now : Int) :
    StoreState × ShortenResult :=
  if req.url = "" then (st, .invalidBody)
  else if !isValidURL req.url then (st, .invalidURL)
  else
    let picked : Option (Int × String) :=
      if req.customCode ≠ "" then
        if !isValidCode req.customCode then none
        else match alookup req.customCode st.urlStore with
          | some _ => none
          | none => some (st.idCounter, req.customCode)
      else
        let next := wrap64 (st.idCounter + 1)
        some (next, encodeBase62 next)
    match picked with
    | none =>
        if req.customCode ≠ "" && !isValidCode req.customCode then (st, .invalidCode)
        else (st, .conflict)
    | some (counter, code) =>
        let expiry := if req.expirySeconds = 0 then 7 * 24 * 3600 else req.expirySeconds
        let rec₀ : URLData :=
          { longURL := req.url, clicks := 0, createdAt := now, expiry := expiry }
        ({ idCounter := counter, urlStore := aupdate code rec₀ st.urlStore },
         .ok code expiry)

/-- Outcome of the redirect handler: 302 with the target, 404, or 410 Gone. -/
inductive RedirectResult where
  | found (longURL : String)
  | notFound
  | gone
deriving DecidableEq, Repr

/-- `handleRedirects` of using-json/main.go as a pure function: a first map
lookup checks `data.Expiry != 0 && now > data.CreatedAt+data.Expiry` and
answers 410 Gone without touching the store; otherwise a second lookup
either increments `Clicks` and re-stores the record (302) or answers 404. -/
def handleRedirects (st : StoreState) (code : String) (now : Int) :
    StoreState × RedirectResult :=
  let expired :=
    match alookup code st.urlStore with
    | some d => d.expiry ≠ 0 && now > d.createdAt + d.expiry
    | none => false
  if expired then (st, .gone)
  else
    match alookup code st.urlStore with
    | some d =>
        ({ st with urlStore := aupdate code { d with clicks := d.clicks + 1 } st.urlStore },
         .found d.longURL)
    | none => (st, .notFound)

/-- Outcome of the delete handler: 204 on success, 404 otherwise. -/
inductive DeleteResult where
  | deleted
  | notFound
deriving DecidableEq, Repr

/-- `deleteHandle` of using-json/main.go as a pure function: 404 if the code
is absent, else the entry is removed from the map. -/
def deleteHandle (st : StoreState) (code : String) : StoreState × DeleteResult :=
  match alookup code st.urlStore with
  | none => (st, .notFound)
  | some _ => ({ st with urlStore := aremove code st.urlStore }, .deleted)

/-- Per-client limiter record of the gin variant: `lastRequest` Unix seconds
and the admitted-request count in the current window. -/
structure RateLimiterEntry where
  lastRequest : Int
  requests : Int
deriving DecidableEq, Repr

/-- `rateLimitWindow` of the source, in seconds. -/
def rateLimitWindow : Int := 60

/-- `maxRequests` of the source. -/
def maxRequests : Int := 5

/-- One pass of `rateLimitMiddleware` for a single client, as a function of
that client entry (none when the map has no entry for the IP) and the
current time; returns the new entry and whether the request was admitted
(false means the middleware aborts with 429 Rate limit exceeded).  Faithful
to the source: no entry, or `now - lastRequest > rateLimitWindow`, resets to
`(now, 1)` and admits; a count at `maxRequests` rejects without touching the
entry; otherwise the count is incremented and `lastRequest` set to now. -/
def rateLimitStep (entry : Option RateLimiterEntry) (now : Int) :
    RateLimiterEntry × Bool :=
  match entry with
  | none => (⟨now, 1⟩, true)
  | some l =>
      if now - l.lastRequest > rateLimitWindow then (⟨now, 1⟩, true)
      else if l.requests ≥ maxRequests then (l, false)
      else (⟨now, l.requests + 1⟩, true)

/-- Folds a sequence of attempt times of one client through the limiter,
returning the admission verdict of each attempt in order. -/
def runLimiter (entry : Option RateLimiterEntry) : List Int → List Bool
  | [] => []
  | t :: ts =>
      let r := rateLimitStep entry t
      r.2 :: runLimiter (some r.1) ts

/-- Primitive store actions of a using-json handler body, in program order:
acquiring and releasing the mutex, reading the map, mutating the map
(assignment or delete), and writing the snapshot file. -/
inductive StoreOp where
  | lock
  | unlock
  | mapRead
  | mapWrite
  | mapDelete
  | fileSave
deriving DecidableEq, Repr

/-- Checks, tracking the held-lock depth, that every mutating action (map
write, map delete, snapshot write) of a trace occurs while the mutex is
held. -/
def mutationsLockedFrom : Int → List StoreOp → Bool
  | _, [] => true
  | d, op :: rest =>
      match op with
      | .lock => mutationsLockedFrom (d + 1) rest
      | .unlock => mutationsLockedFrom (d - 1) rest
      | .mapRead => mutationsLockedFrom d rest
      | .mapWrite => decide (d > 0) && mutationsLockedFrom d rest
      | .mapDelete => decide (d > 0) && mutationsLockedFrom d rest
      | .fileSave => decide (d > 0) && mutationsLockedFrom d rest

/-- True when every mutation of the trace happens inside the mutex. -/
def mutationsLocked (t : List StoreOp) : Bool :=
  mutationsLockedFrom 0 t

/-- Store actions of `shortenHandler` (using-json) on its mutating path:
`mutex.Lock()` with a deferred unlock, the existence check, the map
assignment, and `saveStore()`. -/
def shortenHandlerOps : List StoreOp :=
  [.lock, .mapRead, .mapWrite, .fileSave, .unlock]

/-- Store actions of `handleRedirects` (using-json) on its mutating path:
two map lookups, the clicks re-assignment and `saveStore()` — the function
body contains no `mutex.Lock()` at all. -/
def handleRedirectsOps : List StoreOp :=
  [.mapRead, .mapRead, .mapWrite, .fileSave]

/-- Store actions of `deleteHandle` (using-json) on its mutating path. -/
def deleteHandleOps : List StoreOp :=
  [.lock, .mapRead, .mapDelete, .fileSave, .unlock]

/-- Store actions of `cleanUpExpiredLinks` (using-json): lock, range over
the map deleting expired entries, snapshot, unlock. -/
def cleanUpExpiredLinksOps : List StoreOp :=
  [.lock, .mapRead, .mapDelete, .fileSave, .unlock]

/-- JSON document tree, the model of the text the snapshot file holds;
Go MarshalIndent and Unmarshal are mutually inverse text codecs of this
tree, so the file round trip is studied at the tree level. -/
inductive Json where
  | str (s : String)
  | num (n : Int)
  | obj (fields : List (String × Json))
deriving Repr

/-- Field lookup in a JSON object, as Go Unmarshal matches struct tags. -/
def jlookup (k : String) : List (String × Json) → Option Json
  | [] => none
  | (k₀, v) :: rest => if k₀ = k then some v else jlookup k rest

/-- Marshal of one `URLData` with the struct tags of the source. -/
def marshalURLData (d : URLData) : Json :=
  .obj [("long_url", .str d.longURL), ("clicks", .num d.clicks),
        ("created_at", .num d.createdAt), ("expiry", .num d.expiry)]

/-- String field extraction as Go Unmarshal into a string field: an absent
field keeps the zero value "", a present field must be a JSON string. -/
def jgetStr (fs : List (String × Json)) (k : String) : Option String :=
  match jlookup k fs with
  | none => some ""
  | some (.str s) => some s
  | some _ => none

/-- Integer field extraction as Go Unmarshal into an int/int64 field: an
absent field keeps the zero value 0, a present field must be a number. -/
def jgetNum (fs : List (String × Json)) (k : String) : Option Int :=
  match jlookup k fs with
  | none => some 0
  | some (.num n) => some n
  | some _ => none

/-- Unmarshal of one `URLData`, field by tag. -/
def unmarshalURLData : Json → Option URLData
  | .obj fs =>
      match jgetStr fs "long_url", jgetNum fs "clicks",
            jgetNum fs "created_at", jgetNum fs "expiry" with
      | some l, some c, some ca, some e => some ⟨l, c, ca, e⟩
      | _, _, _, _ => none
  | _ => none

/-- Unmarshal of the `urlStore` object: every value must decode. -/
def unmarshalEntries : List (String × Json) → Option (List (String × URLData))
  | [] => some []
  | (k, j) :: rest =>
      match unmarshalURLData j, unmarshalEntries rest with
      | some d, some ds => some ((k, d) :: ds)
      | _, _ => none

/-- Document written by `saveStore`: the `Store` struct with tags
`idCounter` and `urlStore`, the map marshalled entry-wise. -/
def marshalStore (st : StoreState) : Json :=
  .obj [("idCounter", .num st.idCounter),
        ("urlStore", .obj (st.urlStore.map (fun kv => (kv.1, marshalURLData kv.2))))]

/-- Decoding step of `loadStore`: Unmarshal of the snapshot document back
into the `Store` struct. -/
def unmarshalStore : Json → Option StoreState
  | .obj fs =>
      match jgetNum fs "idCounter" with
      | none => none
      | some c =>
          match jlookup "urlStore" fs with
          | none => some ⟨c, []⟩
          | some (.obj entries) =>
              match unmarshalEntries entries with
              | some l => some ⟨c, l⟩
              | none => none
          | some _ => none
  | _ => none

/-- One `NextCode` step: the int64 counter increment (`idCounter++` in the
using-json variant, Redis INCR in the other) followed by `encodeBase62`. -/
def nextCode (c : Int) : Int × String :=
  (wrap64 (c + 1), encodeBase62 (wrap64 (c + 1)))

/-- Codes returned by k successive `NextCode` calls from counter value c. -/
def nextCodes (c : Int) : Nat → List String
  | 0 => []
  | k + 1 =>
      let p := nextCode c
      p.2 :: nextCodes p.1 k

/-- C9: for every record, the expiry predicate used by the sweep (and stated
by the spec) is the strict comparison: it is false at
`now = createdAt + ttlSeconds` and true at `now = createdAt + ttlSeconds + 1`. -/
theorem isExpired_boundary (d : URLData) :
    isExpired d (d.createdAt + d.expiry) = false ∧
    isExpired d (d.createdAt + d.expiry + 1) = true := by
  constructor <;> simp [isExpired]

/-- C4: a record survives the sweep exactly when it was present before and
not expired at sweep time; in particular no expired record remains and every
non-expired record is still present and unchanged. -/
theorem cleanUpExpiredLinks_spec (st : StoreState) (now : Int) (code : String)
    (d : URLData) :
    (code, d) ∈ (cleanUpExpiredLinks st now).urlStore ↔
      (code, d) ∈ st.urlStore ∧ isExpired d now = false := by
  simp [cleanUpExpiredLinks, List.mem_filter]

theorem alookup_aupdate (k : String) (v : URLData) :
    ∀ l : List (String × URLData), alookup k (aupdate k v l) = some v := by
  intro l
  induction l with
  | nil => simp [aupdate, alookup]
  | cons hd tl ih =>
      by_cases h : hd.1 = k
      · simp [aupdate, alookup, h]
      · simpa [aupdate, alookup, h] using ih

/-- C2: lock discipline of the using-json mutating operations, evaluated on
the store-action traces read off the handler bodies: shorten, delete and the
expiry sweep mutate only inside the mutex, but the redirect click increment
and its snapshot write run with no lock at all, contradicting the claim that
every mutating operation executes entirely inside the single lock. -/
theorem redirect_mutation_unlocked :
    mutationsLocked shortenHandlerOps = true ∧
    mutationsLocked deleteHandleOps = true ∧
    mutationsLocked cleanUpExpiredLinksOps = true ∧
    mutationsLocked handleRedirectsOps = false := by
  decide

/-- C3 counterexample: a request whose custom code "abc" is already a key of
the store but whose URL lacks an http(s) scheme is answered with 400
Invalid URL, not 409 Conflict, because the URL check runs first. -/
theorem shorten_conflict_counterexample :
    alookup "abc" [("abc", URLData.mk "http://a" 0 0 10)] =
      some (URLData.mk "http://a" 0 0 10) ∧
    (shortenHandler ⟨0, [("abc", URLData.mk "http://a" 0 0 10)]⟩
        ⟨"example.com", "abc", 0⟩ 100).2 = ShortenResult.invalidURL ∧
    (shortenHandler ⟨0, [("abc", URLData.mk "http://a" 0 0 10)]⟩
        ⟨"example.com", "abc", 0⟩ 100).2 ≠ ShortenResult.conflict := by
  refine ⟨rfl, rfl, ?_⟩
  intro h
  rw [show (shortenHandler ⟨0, [("abc", URLData.mk "http://a" 0 0 10)]⟩
      ⟨"example.com", "abc", 0⟩ 100).2 = ShortenResult.invalidURL from rfl] at h
  exact ShortenResult.noConfusion h

/-- C3 amended: for every store and every shorten request whose body is
well-formed (non-empty URL with an http(s) scheme) and whose custom code
passes format validation, if that code is already a key of the store the
call fails with Conflict and the whole store — in particular the record
under that code — is unchanged. -/
theorem shorten_conflict_unchanged (st : StoreState) (req : ShortenReq)
    (now : Int) (d : URLData)
    (hu : req.url ≠ "") (hv : isValidURL req.url = true)
    (hc : req.customCode ≠ "") (hf : isValidCode req.customCode = true)
    (hex : alookup req.customCode st.urlStore = some d) :
    shortenHandler st req now = (st, ShortenResult.conflict) ∧
    alookup req.customCode (shortenHandler st req now).1.urlStore = some d := by
  have h : shortenHandler st req now = (st, ShortenResult.conflict) := by
    simp [shortenHandler, hu, hv, hc, hf, hex]
  exact ⟨h, by rw [h]; exact hex⟩

theorem shorten_conflict_unchanged_witness :
    shortenHandler ⟨0, [("abc", URLData.mk "http://a" 0 0 10)]⟩
        ⟨"https://b", "abc", 0⟩ 100 =
      (⟨0, [("abc", URLData.mk "http://a" 0 0 10)]⟩, ShortenResult.conflict) ∧
    alookup "abc" (shortenHandler ⟨0, [("abc", URLData.mk "http://a" 0 0 10)]⟩
        ⟨"https://b", "abc", 0⟩ 100).1.urlStore = some (URLData.mk "http://a" 0 0 10) :=
  shorten_conflict_unchanged ⟨0, [("abc", URLData.mk "http://a" 0 0 10)]⟩
    ⟨"https://b", "abc", 0⟩ 100 (URLData.mk "http://a" 0 0 10)
    (by decide) (by decide) (by decide) (by decide) rfl

/-- C5: a redirect at time T + 11 on a code whose record was created at T
with a 10-second TTL answers 410 Gone and leaves the store — in particular
the clicks counter of that record — exactly as it was. -/
theorem redirect_gone_spec (st : StoreState) (code : String) (d : URLData)
    (T : Int) (hex : alookup code st.urlStore = some d)
    (hca : d.createdAt = T) (httl : d.expiry = 10) :
    handleRedirects st code (T + 11) = (st, RedirectResult.gone) := by
  simp [handleRedirects, hex]
  omega

theorem redirect_gone_spec_witness :
    handleRedirects ⟨0, [("x", URLData.mk "http://a" 7 50 10)]⟩ "x" (50 + 11) =
      (⟨0, [("x", URLData.mk "http://a" 7 50 10)]⟩, RedirectResult.gone) :=
  redirect_gone_spec ⟨0, [("x", URLData.mk "http://a" 7 50 10)]⟩ "x"
    (URLData.mk "http://a" 7 50 10) 50 rfl rfl rfl

/-- C8: shortening https://example.com with no custom code and no TTL on an
empty store with counter 0 succeeds with code "1" (base-62 of the counter
after its increment from 0) and stores the record with the 7-day default
TTL of 604800 seconds. -/
theorem shorten_first_code (now : Int) :
    shortenHandler ⟨0, []⟩ ⟨"https://example.com", "", 0⟩ now =
      (⟨1, [("1", URLData.mk "https://example.com" 0 now 604800)]⟩,
       ShortenResult.ok "1" 604800) := by
  rfl

/-- C10: a shorten request with a valid URL and a strictly negative
expiry_seconds stores that negative value as the TTL — the 7-day default is
substituted only when expiry_seconds is exactly 0 — so the created record is
already expired at its own creation instant. -/
theorem shorten_negative_ttl (st : StoreState) (req : ShortenReq) (now : Int)
    (hu : req.url ≠ "") (hv : isValidURL req.url = true)
    (hc : req.customCode = "") (hneg : req.expirySeconds < 0) :
    shortenHandler st req now =
      ({ idCounter := wrap64 (st.idCounter + 1),
         urlStore := aupdate (encodeBase62 (wrap64 (st.idCounter + 1)))
           (URLData.mk req.url 0 now req.expirySeconds) st.urlStore },
       ShortenResult.ok (encodeBase62 (wrap64 (st.idCounter + 1))) req.expirySeconds) ∧
    isExpired (URLData.mk req.url 0 now req.expirySeconds) now = true := by
  have hne : ¬req.expirySeconds = 0 := by omega
  constructor
  · simp [shortenHandler, hu, hv, hc, hne]
  · simp only [isExpired, gt_iff_lt, decide_eq_true_eq]
    omega

theorem shorten_negative_ttl_witness :
    shortenHandler ⟨0, []⟩ ⟨"https://e", "", -5⟩ 100 =
      (⟨1, [("1", URLData.mk "https://e" 0 100 (-5))]⟩, ShortenResult.ok "1" (-5)) ∧
    isExpired (URLData.mk "https://e" 0 100 (-5)) 100 = true := by
  have h := shorten_negative_ttl ⟨0, []⟩ ⟨"https://e", "", -5⟩ 100
    (by decide) (by decide) rfl (by decide)
  refine ⟨?_, h.2⟩
  rw [h.1]
  rfl

theorem runLimiter_invariant (t0 : Int) :
    ∀ (ts : List Int) (lr r : Int), t0 ≤ lr → lr ≤ t0 + rateLimitWindow → 1 ≤ r →
    (∀ t ∈ ts, t0 ≤ t ∧ t ≤ t0 + rateLimitWindow) →
    runLimiter (some ⟨lr, r⟩) ts =
      (List.range ts.length).map (fun (i : Nat) => decide ((i : Int) < maxRequests - r)) := by
  intro ts
  induction ts with
  | nil => intro lr r _ _ _ _; rfl
  | cons t ts ih =>
      intro lr r hlr1 hlr2 hr hts
      have ht := hts t (by simp)
      have hnr : ¬(t - lr > rateLimitWindow) := by
        simp only [rateLimitWindow] at *
        omega
      by_cases hsat : r ≥ maxRequests
      · have hstep : rateLimitStep (some ⟨lr, r⟩) t = (⟨lr, r⟩, false) := by
          simp [rateLimitStep, hnr, hsat]
        rw [runLimiter, hstep]
        rw [ih lr r hlr1 hlr2 hr (fun u hu => hts u (by simp [hu]))]
        rw [List.length_cons, List.range_succ_eq_map, List.map_cons, List.map_map]
        refine List.cons_eq_cons.mpr ⟨?_, List.map_congr_left ?_⟩
        · rw [decide_eq_false]
          simp only [maxRequests] at hsat ⊢
          push_cast
          omega
        · intro i _
          simp only [Function.comp]
          rw [decide_eq_decide]
          simp only [maxRequests] at hsat ⊢
          push_cast
          omega
      · have hstep : rateLimitStep (some ⟨lr, r⟩) t = (⟨t, r + 1⟩, true) := by
          simp [rateLimitStep, hnr, hsat]
        rw [runLimiter, hstep]
        rw [ih t (r + 1) ht.1 ht.2 (by omega) (fun u hu => hts u (by simp [hu]))]
        rw [List.length_cons, List.range_succ_eq_map, List.map_cons, List.map_map]
        refine List.cons_eq_cons.mpr ⟨?_, List.map_congr_left ?_⟩
        · rw [decide_eq_true]
          simp only [maxRequests] at hsat ⊢
          push_cast
          omega
        · intro i _
          simp only [Function.comp]
          rw [decide_eq_decide]
          simp only [maxRequests] at hsat ⊢
          push_cast
          omega

/-- C1: single-client admission limiter.  First, an attempt arriving more
than the 60-second window after the stored timestamp resets the entry to
(now, 1) and is admitted.  Second, within one un-reset window (all attempts
inside [t0, t0 + 60], starting from no entry) exactly the first
`maxRequests` = 5 attempts are admitted and every later one, in particular
the 6th, is rejected with 429 RateLimited. -/
theorem rateLimit_window_spec (l : RateLimiterEntry) (now t0 : Int) (ts : List Int) :
    (now - l.lastRequest > rateLimitWindow →
      rateLimitStep (some l) now = (⟨now, 1⟩, true)) ∧
    ((∀ t ∈ ts, t0 ≤ t ∧ t ≤ t0 + rateLimitWindow) →
      runLimiter none (t0 :: ts) =
        (List.range (ts.length + 1)).map (fun (i : Nat) => decide (i < 5))) := by
  constructor
  · intro h
    simp [rateLimitStep, h]
  · intro hts
    have h0 : rateLimitStep none t0 = (⟨t0, 1⟩, true) := rfl
    rw [runLimiter, h0]
    rw [runLimiter_invariant t0 ts t0 1 le_rfl (by simp [rateLimitWindow]) le_rfl hts]
    rw [List.range_succ_eq_map, List.map_cons, List.map_map]
    refine List.cons_eq_cons.mpr ⟨rfl, List.map_congr_left ?_⟩
    intro i _
    simp only [Function.comp, maxRequests]
    rw [decide_eq_decide]
    push_cast
    omega

theorem rateLimit_window_spec_witness :
    rateLimitStep (some ⟨0, 3⟩) 100 = (⟨100, 1⟩, true) ∧
    runLimiter none [0, 1, 2, 3, 4, 5, 6] =
      [true, true, true, true, true, false, false] := by
  have h := rateLimit_window_spec ⟨0, 3⟩ 100 0 [1, 2, 3, 4, 5, 6]
  refine ⟨h.1 (by decide), ?_⟩
  have h2 := h.2 (by decide)
  rw [h2]
  rfl

theorem unmarshal_marshal_urldata (d : URLData) :
    unmarshalURLData (marshalURLData d) = some d := rfl

theorem unmarshal_marshal_entries (l : List (String × URLData)) :
    unmarshalEntries (l.map (fun kv => (kv.1, marshalURLData kv.2))) = some l := by
  induction l with
  | nil => rfl
  | cons hd tl ih =>
      simp only [List.map_cons, unmarshalEntries, unmarshal_marshal_urldata, ih]

/-- C7: the snapshot round trip is the identity on store states: Unmarshal
of the document Marshal writes (idCounter plus the record map, each record
with its four tagged fields) recovers exactly the in-memory store; in
particular the persisted store with idCounter 3 and one record keyed "3"
reloads to exactly that store. -/
theorem store_roundtrip :
    (∀ st : StoreState, unmarshalStore (marshalStore st) = some st) ∧
    unmarshalStore (marshalStore ⟨3, [("3", URLData.mk "http://a" 2 5 10)]⟩) =
      some ⟨3, [("3", URLData.mk "http://a" 2 5 10)]⟩ := by
  have hgen : ∀ st : StoreState, unmarshalStore (marshalStore st) = some st := by
    intro st
    have h1 : jgetNum [("idCounter", Json.num st.idCounter),
        ("urlStore", Json.obj (st.urlStore.map (fun kv => (kv.1, marshalURLData kv.2))))]
        "idCounter" = some st.idCounter := rfl
    have h2 : jlookup "urlStore" [("idCounter", Json.num st.idCounter),
        ("urlStore", Json.obj (st.urlStore.map (fun kv => (kv.1, marshalURLData kv.2))))] =
        some (Json.obj (st.urlStore.map (fun kv => (kv.1, marshalURLData kv.2)))) := rfl
    simp only [marshalStore, unmarshalStore, h1, h2, unmarshal_marshal_entries]
  exact ⟨hgen, hgen _⟩

theorem decodeDigits_append (l : List Nat) (d : Nat) :
    decodeDigits (l ++ [d]) = decodeDigits l * 62 + d := by
  simp [decodeDigits, List.foldl_append]

theorem decode_b62DigitsAux :
    ∀ (f n : Nat), n ≤ f → decodeDigits (b62DigitsAux f n) = n := by
  intro f
  induction f with
  | zero =>
      intro n hn
      have : n = 0 := by omega
      subst this
      rfl
  | succ f ih =>
      intro n hn
      by_cases h : n = 0
      · subst h
        rfl
      · have hdiv : n / 62 < n := Nat.div_lt_self (Nat.pos_of_ne_zero h) (by norm_num)
        rw [b62DigitsAux, if_neg h, decodeDigits_append, ih (n / 62) (by omega)]
        omega

theorem b62DigitsAux_lt :
    ∀ (f n d : Nat), d ∈ b62DigitsAux f n → d < 62 := by
  intro f
  induction f with
  | zero =>
      intro n d h
      simp [b62DigitsAux] at h
  | succ f ih =>
      intro n d h
      by_cases hn : n = 0
      · subst hn
        simp [b62DigitsAux] at h
      · rw [b62DigitsAux, if_neg hn] at h
        rcases List.mem_append.mp h with h | h
        · exact ih _ _ h
        · rw [List.mem_singleton.mp h]
          exact Nat.mod_lt n (by norm_num)

theorem b62CharIndex_getD :
    ∀ d : Fin 62, b62CharIndex (base62.getD d.val ' ') = d.val := by
  decide

theorem decodeB62_encode (n : Nat) (h : 0 < n) :
    decodeB62 (encodeBase62 n) = n := by
  have hne : ¬((n : Int) = 0) := by omega
  rw [encodeBase62, if_neg hne, Int.toNat_natCast]
  show ((b62Digits n).map (fun d => base62.getD d ' ')).foldl
      (fun acc c => acc * 62 + b62CharIndex c) 0 = n
  rw [List.foldl_map]
  have hcongr : ∀ (l : List Nat), (∀ d ∈ l, d < 62) → ∀ a : Nat,
      l.foldl (fun acc d => acc * 62 + b62CharIndex (base62.getD d ' ')) a =
        l.foldl (fun acc d => acc * 62 + d) a := by
    intro l
    induction l with
    | nil => intro _ a; rfl
    | cons hd tl ih =>
        intro hl a
        simp only [List.foldl_cons]
        rw [b62CharIndex_getD ⟨hd, hl hd (by simp)⟩]
        exact ih (fun d hd₂ => hl d (by simp [hd₂])) _
  rw [hcongr (b62Digits n) (fun d hd => b62DigitsAux_lt n n d hd) 0]
  exact decode_b62DigitsAux n n le_rfl

theorem wrap64_eq (x : Int) (h1 : -(2 ^ 63) ≤ x) (h2 : x < 2 ^ 63) :
    wrap64 x = x := by
  unfold wrap64
  rw [Int.emod_eq_of_lt (by omega) (by omega)]
  ring

theorem nextCodes_eq :
    ∀ (k : Nat) (c : Int), 0 ≤ c → c + k < 2 ^ 63 →
    nextCodes c k = (List.range k).map (fun (i : Nat) => encodeBase62 (c + i + 1)) := by
  intro k
  induction k with
  | zero => intro c _ _; rfl
  | succ k ih =>
      intro c h0 hk
      have hk₁ : c + 1 < 2 ^ 63 := by push_cast at hk; omega
      have hw : wrap64 (c + 1) = c + 1 := wrap64_eq _ (by omega) hk₁
      rw [nextCodes]
      simp only [nextCode, hw]
      rw [ih (c + 1) (by omega) (by push_cast at hk ⊢; omega)]
      rw [List.range_succ_eq_map, List.map_cons, List.map_map]
      refine List.cons_eq_cons.mpr ⟨?_, List.map_congr_left ?_⟩
      · norm_num
      · intro i _
        simp only [Function.comp]
        congr 1
        push_cast
        ring

/-- C6 counterexample: the int64 counter can be negative (loadStore accepts
any persisted idCounter, and overflow of the increment is silent), and
encodeBase62 of every negative value is the empty string, so two NextCode
calls starting from counter value -3 return the same code twice. -/
theorem nextCodes_collision_counterexample :
    nextCodes (-3) 2 = ["", ""] ∧
    ¬(nextCodes (-3) 2).Pairwise (fun s t : String => s ≠ t) := by
  have h : nextCodes (-3) 2 = ["", ""] := by rfl
  refine ⟨h, ?_⟩
  rw [h]
  intro hp
  exact (List.pairwise_cons.mp hp).1 "" (by simp) rfl

/-- C6 amended: starting from any non-negative counter value and as long as
the int64 counter does not overflow, the codes returned by successive
NextCode calls are pairwise distinct and the integers they base-62 encode
are strictly increasing. -/
theorem nextCodes_distinct_mono (c : Int) (k : Nat) (h0 : 0 ≤ c)
    (hk : c + k < 2 ^ 63) :
    (nextCodes c k).Pairwise
      (fun s t => s ≠ t ∧ decodeB62 s < decodeB62 t) := by
  rw [nextCodes_eq k c h0 hk]
  refine List.Pairwise.map _ ?_ (List.pairwise_lt_range k)
  intro i j hij
  have key : ∀ x : Int, 0 < x → decodeB62 (encodeBase62 x) = x.toNat := by
    intro x hx
    rw [show x = ((x.toNat : Nat) : Int) from (Int.toNat_of_nonneg (by omega)).symm]
    rw [decodeB62_encode _ (by omega)]
    exact (Int.toNat_natCast _).symm
  have di := key (c + (i : Int) + 1) (by omega)
  have dj := key (c + (j : Int) + 1) (by omega)
  constructor
  · intro heq
    rw [heq, dj] at di
    omega
  · rw [di, dj]
    omega

theorem nextCodes_distinct_mono_witness :
    (nextCodes 0 3).Pairwise
      (fun s t => s ≠ t ∧ decodeB62 s < decodeB62 t) :=
  nextCodes_distinct_mono 0 3 (by norm_num) (by norm_num)
